import Mathlib

/-!
Verification of the document ingestion and retrieval pipeline of the
`bajaj` repository (PDF fetch with retry, text cleaning, sentence-based
chunking with overlap, vector upsert/query with degraded mode, per-document
idempotent ingestion, and answer/clause persistence).

Text is modelled as `List Char` (Python `str`).  Character classes
(`\s`, `\w`) are modelled by their ASCII behaviour; every definition uses the
same classifiers, so the theorems relating the implementation to the spec are
insensitive to that choice.
-/

namespace Bajaj

/-- Python `str` is modelled as a list of characters. -/
abbrev Text := List Char

/-- `settings.CHUNK_SIZE` (`config/settings.py`). -/
def chunkSize : Nat := 1000

/-- `settings.CHUNK_OVERLAP` (`config/settings.py`). -/
def chunkOverlap : Nat := 200

/-- ASCII model of Python's whitespace class (`\s`, `str.strip`). -/
def isSpaceChar (c : Char) : Bool :=
  c = ' ' || c = '\t' || c = '\n' || c = '\r' || c = '\x0b' || c = '\x0c'

/-- ASCII model of Python's word class `\w`: alphanumerics and underscore. -/
def isWordChar (c : Char) : Bool :=
  c.isAlphanum || c = '_'

/-- Python `str.strip()`: drop whitespace from both ends. -/
def strip (t : Text) : Text :=
  ((t.dropWhile isSpaceChar).reverse.dropWhile isSpaceChar).reverse

/-- The sentence terminators of `PDFService._split_into_sentences`
(`re.split(r'[.!?]+', text)`). -/
def isTerminator (c : Char) : Bool :=
  c = '.' || c = '!' || c = '?'

mutual

/-- Accumulating worker for `re.split(r'[.!?]+', text)`: collects the current
piece (reversed) until a terminator run starts. -/
def splitTermGo : Text → Text → List Text
  | [], acc => [acc.reverse]
  | c :: rest, acc =>
    if isTerminator c then acc.reverse :: splitTermSkip rest
    else splitTermGo rest (c :: acc)

/-- Skips the remainder of a terminator run (`[.!?]+` consumes a maximal run),
then resumes piece collection. -/
def splitTermSkip : Text → List Text
  | [] => [[]]
  | c :: rest =>
    if isTerminator c then splitTermSkip rest
    else splitTermGo rest [c]

end

/-- `re.split(r'[.!?]+', text)`: the pieces of `text` between maximal runs of
sentence terminators (with empty pieces at the ends, as in Python). -/
def splitTerm (t : Text) : List Text := splitTermGo t []

/-- `PDFService._split_into_sentences`: split on terminator runs, strip each
piece, keep the non-empty ones
(`[s.strip() for s in sentences if s.strip()]`). -/
def splitIntoSentences (t : Text) : List Text :=
  ((splitTerm t).map strip).filter (fun s => s ≠ [])

/-- `PDFService._get_overlap_text`: the whole text when it is no longer than
`chunk_overlap`; otherwise the last `chunk_overlap` characters
(`text[-self.chunk_overlap:]`), cut at the first space if one exists
(`overlap[space_index:].strip()`, where `space_index = overlap.find(' ')`). -/
def getOverlapText (text : Text) : Text :=
  if text.length ≤ chunkOverlap then text
  else if (text.drop (text.length - chunkOverlap)).contains ' ' then
    strip ((text.drop (text.length - chunkOverlap)).dropWhile (fun c => c ≠ ' '))
  else text.drop (text.length - chunkOverlap)

/-- The sentence-accumulation loop of `PDFService.chunk_text`:
`chunks` is the list built so far, `current` is `current_chunk`.
When adding a sentence would exceed `chunk_size` and `current_chunk` is
non-empty, the chunk is closed (stripped) and the next one is seeded with
`overlap_text + " " + sentence`; an over-long sentence with an empty
`current_chunk` becomes the chunk on its own; otherwise the sentence is
appended with a single joining space. -/
def chunkLoop (chunks : List Text) (current : Text) : List Text → List Text
  | [] => if current ≠ [] then chunks ++ [strip current] else chunks
  | s :: rest =>
    if current.length + s.length > chunkSize then
      if current ≠ [] then
        chunkLoop (chunks ++ [strip current]) (getOverlapText current ++ ' ' :: s) rest
      else
        chunkLoop chunks s rest
    else
      chunkLoop chunks (if current ≠ [] then current ++ ' ' :: s else s) rest

/-- `PDFService.chunk_text`. -/
def chunkText (text : Text) : List Text :=
  chunkLoop [] [] (splitIntoSentences text)

/-- The character class kept by `_clean_text`'s second pass
(`re.sub(r'[^\w\s.,;:!?()-]', '', text)` removes everything else). -/
def isAllowedChar (c : Char) : Bool :=
  isWordChar c || isSpaceChar c ||
    (c = '.' || c = ',' || c = ';' || c = ':' || c = '!' || c = '?' ||
     c = '(' || c = ')' || c = '-')

/-- `re.sub(r'\s+', ' ', text)`: each maximal whitespace run becomes one
space. -/
def collapseWs : Text → Text
  | [] => []
  | c :: rest =>
    if isSpaceChar c then ' ' :: collapseWs (rest.dropWhile isSpaceChar)
    else c :: collapseWs rest
termination_by t => t.length
decreasing_by
  · simpa using Nat.lt_succ_of_le ((List.dropWhile_suffix isSpaceChar).length_le)
  · simp

/-- `re.sub(r'[^\w\s.,;:!?()-]', '', text)`: remove every disallowed
character. -/
def stripSpecial (t : Text) : Text :=
  t.filter isAllowedChar

/-- `re.sub(r'\.{3,}', '...', text)`: each maximal run of at least three
periods becomes exactly three. -/
def collapseDots : Text → Text
  | [] => []
  | c :: rest =>
    if c = '.' then
      (if 3 ≤ 1 + (rest.takeWhile (fun x => x = '.')).length then ['.', '.', '.']
       else '.' :: rest.takeWhile (fun x => x = '.')) ++
        collapseDots (rest.dropWhile (fun x => x = '.'))
    else c :: collapseDots rest
termination_by t => t.length
decreasing_by
  · simpa using Nat.lt_succ_of_le ((List.dropWhile_suffix (fun x => x = '.')).length_le)
  · simp

/-- `PDFService._clean_text`: the three regex passes in source order followed
by `strip()`. -/
def cleanText (t : Text) : Text :=
  strip (collapseDots (stripSpecial (collapseWs t)))

/-!
Spec-side restatement of the normalization (§4.2 of the spec / claim C7),
written independently of the regex translations above: whitespace collapsing
tracked by a previous-was-whitespace flag, character removal by direct
recursion, and the ellipsis rule by a count of periods already kept in the
current run.
-/

/-- Spec reading of whitespace collapsing: emit a single space for a run,
skipping further whitespace while the flag is set. -/
def specCollapseWs : Bool → Text → Text
  | _, [] => []
  | prev, c :: rest =>
    if isSpaceChar c then
      if prev then specCollapseWs true rest else ' ' :: specCollapseWs true rest
    else c :: specCollapseWs false rest

/-- Spec reading of character removal: keep a character iff it is a word
character, whitespace, or one of `. , ; : ! ? ( ) -`. -/
def specRemoveDisallowed : Text → Text
  | [] => []
  | c :: rest =>
    if isAllowedChar c then c :: specRemoveDisallowed rest
    else specRemoveDisallowed rest

/-- Spec reading of the ellipsis rule: keep at most the first three periods of
each consecutive run (`n` counts the periods of the current run seen so
far). -/
def specCollapseDots : Nat → Text → Text
  | _, [] => []
  | n, c :: rest =>
    if c = '.' then
      if n < 3 then '.' :: specCollapseDots (n + 1) rest
      else specCollapseDots (n + 1) rest
    else c :: specCollapseDots 0 rest

/-- Claim C7's description of `_clean_text`: the four normalization steps, in
order, as worded by the spec. -/
def specNormalize (t : Text) : Text :=
  strip (specCollapseDots 0 (specRemoveDisallowed (specCollapseWs false t)))

/-!
Vector store (`services/pinecone_service.py`)

Similarity search itself is performed by the external Pinecone client; the
embedding values are produced by the external model and never inspected by
this code, so vectors are modelled by their id and metadata payload, and a
query's response is an oracle parameter.  Exceptions raised by the external
client inside the `try` blocks of `store_chunks` / `search_similar_chunks`
are modelled by boolean success flags.
-/

/-- Similarity scores are passed through untouched by the code; their numeric
type is irrelevant, so they are modelled as integers. -/
abbrev Score := Int

/-- One record held by the Pinecone index: the generated id plus the metadata
payload written by `store_chunks`. -/
structure PineconeVector where
  id : Text
  documentId : Text
  chunkIndex : Nat
  textMeta : Text
  fullText : Text
deriving DecidableEq, Repr

/-- The state of `PineconeService`: `none` models `self.index is None`
(vector store unavailable), `some vs` the content of a reachable index. -/
abbrev IndexState := Option (List PineconeVector)

/-- Decimal rendering of a natural number, for `f"..._{i}_..."`. -/
def natText (n : Nat) : Text := (Nat.repr n).toList

/-- `f"{document_id}_{i}_{str(uuid.uuid4())[:8]}"` in `store_chunks`. -/
def pineconeIdOf (documentId : Text) (i : Nat) (suffix : Text) : Text :=
  documentId ++ '_' :: natText i ++ '_' :: suffix

/-- `f"local_{document_id}_{i}_{str(uuid.uuid4())[:8]}"`: the placeholder id
returned when `self.index is None`. -/
def localIdOf (documentId : Text) (i : Nat) (suffix : Text) : Text :=
  "local_".toList ++ documentId ++ '_' :: natText i ++ '_' :: suffix

/-- `f"fallback_{document_id}_{i}_{str(uuid.uuid4())[:8]}"`: the placeholder
id returned when the embed/upsert `try` block raises. -/
def fallbackIdOf (documentId : Text) (i : Nat) (suffix : Text) : Text :=
  "fallback_".toList ++ documentId ++ '_' :: natText i ++ '_' :: suffix

/-- `PineconeService.store_chunks`: with no index, one `local_` dummy id per
chunk; with an index, embed and upsert one vector per chunk (metadata `text`
truncated to 1000 characters, `full_text` whole) and return the generated ids
in chunk order; if the `try` block raises (`upsertOk = false`), one
`fallback_` dummy id per chunk.  `suffix i` models `str(uuid.uuid4())[:8]`
for the `i`-th chunk. -/
def storeChunks (index : IndexState) (upsertOk : Bool) (suffix : Nat → Text)
    (chunks : List Text) (documentId : Text) : IndexState × List Text :=
  match index with
  | none =>
    (none, (List.range chunks.length).map fun i => localIdOf documentId i (suffix i))
  | some vecs =>
    if upsertOk then
      let ids := (List.range chunks.length).map fun i => pineconeIdOf documentId i (suffix i)
      let newVecs := chunks.enum.map fun p =>
        PineconeVector.mk (pineconeIdOf documentId p.1 (suffix p.1)) documentId p.1
          (p.2.take 1000) p.2
      (some (vecs ++ newVecs), ids)
    else
      (some vecs, (List.range chunks.length).map fun i => fallbackIdOf documentId i (suffix i))

/-- One formatted result of `search_similar_chunks` (id, `full_text`, score,
`chunk_index`, `document_id` pulled from the match metadata). -/
structure RetrievalMatch where
  id : Text
  text : Text
  score : Score
  chunkIndex : Nat
  documentId : Text
deriving DecidableEq, Repr

/-- `PineconeService.search_similar_chunks`: empty when `self.index is None`;
otherwise format the store's response (an oracle: the external
nearest-neighbour choice), or empty when the `try` block raises
(`queryOk = false`). -/
def searchSimilarChunks (index : IndexState) (queryOk : Bool)
    (response : List (PineconeVector × Score)) : List RetrievalMatch :=
  match index with
  | none => []
  | some _ =>
    if queryOk then
      response.map fun p =>
        RetrievalMatch.mk p.1.id p.1.fullText p.2 p.1.chunkIndex p.1.documentId
    else []

/-!
Relational persistence (`services/database_service.py`)

Supabase tables are modelled as in-memory lists of rows in insertion order;
an insert appends, a filtered select is `List.filter` / `List.find?`.
-/

/-- A row of the `document_chunks` table (`create_document_chunk`). -/
structure ChunkRow where
  id : Text
  documentId : Text
  chunkIndex : Nat
  chunkText : Text
  pineconeId : Text
deriving DecidableEq, Repr

/-- A row of the `user_queries` table (`create_user_query`). -/
structure QueryRow where
  id : Text
  documentId : Text
  queryText : Text
deriving DecidableEq, Repr

/-- A row of the `answers` table (`create_answer_with_clauses`). -/
structure AnswerRow where
  id : Text
  queryId : Text
  answerText : Text
deriving DecidableEq, Repr

/-- A row of the `answer_clauses` table (`create_answer_with_clauses`). -/
structure ClauseRow where
  id : Text
  answerId : Text
  chunkId : Text
  clauseText : Text
  similarityScore : Score
deriving DecidableEq, Repr

/-- The persistence state: the five tables consumed by the core.  Documents
are `(id, url)` pairs. -/
structure DbState where
  documents : List (Text × Text)
  chunks : List ChunkRow
  queries : List QueryRow
  answers : List AnswerRow
  clauses : List ClauseRow
deriving DecidableEq, Repr

/-- `DatabaseService.get_or_create_document`: select by url and return the
first row, else insert `(uuid, url)`; `newId` models `str(uuid.uuid4())`. -/
def getOrCreateDocument (newId : Text) (db : DbState) (url : Text) :
    DbState × Text :=
  match db.documents.find? (fun d => d.2 = url) with
  | some d => (db, d.1)
  | none => ({ db with documents := db.documents ++ [(newId, url)] }, newId)

/-- `DatabaseService.has_chunks`: `len(select id where document_id = ...) > 0`;
any exception from the read is caught and `False` returned (`readOk = false`
models a raising persistence read). -/
def hasChunks (readOk : Bool) (db : DbState) (documentId : Text) : Bool :=
  if readOk then (db.chunks.filter (fun r => r.documentId = documentId)).length > 0
  else false

/-- The clause-construction loop of
`DatabaseService.create_answer_with_clauses`: for each match, select the
first chunk row whose `pinecone_id` equals the match id (the lookup has no
document filter); a resolving match contributes a clause carrying the chunk
row's id, the match text truncated to 1000 characters
(`chunk_data['text'][:1000]`) and the match score; a non-resolving match
contributes nothing.  `uuid n` models the `n`-th clause row uuid. -/
def buildClauses (uuid : Nat → Text) (rows : List ChunkRow) (answerId : Text) :
    List RetrievalMatch → Nat → List ClauseRow
  | [], _ => []
  | m :: rest, n =>
    match rows.find? (fun r => r.pineconeId = m.id) with
    | some row =>
      ClauseRow.mk (uuid n) answerId row.id (m.text.take 1000) m.score ::
        buildClauses uuid rows answerId rest (n + 1)
    | none => buildClauses uuid rows answerId rest n

/-- `DatabaseService.create_answer_with_clauses`: insert the answer row, then
the clauses built from the matches. -/
def createAnswerWithClauses (answerId : Text) (uuid : Nat → Text) (db : DbState)
    (queryId : Text) (answerText : Text) (ms : List RetrievalMatch) :
    DbState × AnswerRow :=
  ({ db with
      answers := db.answers ++ [AnswerRow.mk answerId queryId answerText]
      clauses := db.clauses ++ buildClauses uuid db.chunks answerId ms 0 },
    AnswerRow.mk answerId queryId answerText)

/-!
Fetch retry loop (`PDFService.extract_text_from_url`)
-/

/-- Per-attempt outcome of `self.session.get(...)` plus
`response.raise_for_status()`, as classified by the loop's `except` branches.
`otherErr` is any other exception; in particular, against an endpoint that
always answers HTTP 503 the mounted
`HTTPAdapter(Retry(total=3, status_forcelist=[429, 500, 502, 503, 504]))`
retries internally and surfaces `requests.exceptions.RetryError` (a direct
`RequestException`, caught by no specific branch), so each attempt of the
loop observes `otherErr` there and `raise_for_status` never sees the 503. -/
inductive FetchOutcome where
  | ok (content : Text)
  | connErr
  | timeoutErr
  | httpErr (status : Nat)
  | otherErr
deriving DecidableEq, Repr

/-- How `extract_text_from_url` fails: the taxonomy of exceptions it
raises from the download loop. -/
inductive FetchError where
  | unreachable
  | timedOut
  | notFound
  | accessDenied
  | httpFailure (status : Nat)
  | upstreamFailure
deriving DecidableEq, Repr

/-- The download loop of `extract_text_from_url`: `attempt` is the current
0-based attempt index, the `Nat` argument the remaining attempts
(`max_attempts - attempt`).  Returns the outcome together with the list of
`time.sleep(2 ** attempt)` durations performed and the number of
`session.get` attempts made.  Connection errors, timeouts and generic
exceptions retry until the final attempt; HTTP errors map 404 / 403 to
dedicated failures and re-raise anything else at once. -/
def downloadGo (oracle : Nat → FetchOutcome) (attempt : Nat) :
    Nat → Except FetchError Text × List Nat × Nat
  | 0 => (Except.error FetchError.upstreamFailure, [], 0)
  | fuel + 1 =>
    match oracle attempt with
    | .ok c => (Except.ok c, [], 1)
    | .connErr =>
      if fuel = 0 then (Except.error FetchError.unreachable, [], 1)
      else
        let r := downloadGo oracle (attempt + 1) fuel
        (r.1, 2 ^ attempt :: r.2.1, r.2.2 + 1)
    | .timeoutErr =>
      if fuel = 0 then (Except.error FetchError.timedOut, [], 1)
      else
        let r := downloadGo oracle (attempt + 1) fuel
        (r.1, 2 ^ attempt :: r.2.1, r.2.2 + 1)
    | .httpErr status =>
      if status = 404 then (Except.error FetchError.notFound, [], 1)
      else if status = 403 then (Except.error FetchError.accessDenied, [], 1)
      else (Except.error (FetchError.httpFailure status), [], 1)
    | .otherErr =>
      if fuel = 0 then (Except.error FetchError.upstreamFailure, [], 1)
      else
        let r := downloadGo oracle (attempt + 1) fuel
        (r.1, 2 ^ attempt :: r.2.1, r.2.2 + 1)

/-- The download phase of `extract_text_from_url` with its `max_attempts = 3`
(the scheme check precedes it and PDF parsing follows it; neither affects the
retry behaviour). -/
def downloadPdf (oracle : Nat → FetchOutcome) :
    Except FetchError Text × List Nat × Nat :=
  downloadGo oracle 0 3

/-!
Ingestion coordinator (`controllers/query_controller.py`)
-/

/-- Counts of pipeline-work invocations during one
`process_document_queries` ingestion phase: `extract_text_from_url` calls
(fetch + extract), `chunk_text` calls, and `store_chunks` calls
(embed + upsert). -/
structure IngestTrace where
  fetchCalls : Nat
  chunkCalls : Nat
  storeCalls : Nat
deriving DecidableEq, Repr

/-- The external collaborators of one ingestion run: the outcome of
`extract_text_from_url` for the url, the health of the `has_chunks`
persistence read, the health of the embed/upsert block, and uuid sources for
the document row, the chunk rows and the vector-id suffixes. -/
structure IngestEnv where
  fetched : Except FetchError Text
  chunkReadOk : Bool
  upsertOk : Bool
  docUuid : Text
  rowUuid : Nat → Text
  vecSuffix : Nat → Text

/-- `QueryController._store_document_chunks`: store the chunks in Pinecone,
then insert one chunk row per `(i, (chunk_text, pinecone_id))` of
`enumerate(zip(chunks, chunk_data))`. -/
def storeDocumentChunks (env : IngestEnv) (db : DbState) (index : IndexState)
    (documentId : Text) (chunks : List Text) : DbState × IndexState × List Text :=
  ({ db with
      chunks := db.chunks ++
        (chunks.zip (storeChunks index env.upsertOk env.vecSuffix chunks documentId).2).enum.map
          fun p => ChunkRow.mk (env.rowUuid p.1) documentId p.1 p.2.1 p.2.2 },
    (storeChunks index env.upsertOk env.vecSuffix chunks documentId).1,
    (storeChunks index env.upsertOk env.vecSuffix chunks documentId).2)

/-- The ingestion phase of `QueryController.process_document_queries`
(steps 1-2: the spec's `ensure_ingested(url)`): resolve or create the
document, short-circuit when `has_chunks` reports existing chunks, otherwise
fetch + extract, chunk, and store.  Returns the updated persistence and index
states, the resolved document id, and the work trace. -/
def ensureIngested (env : IngestEnv) (db : DbState) (index : IndexState)
    (url : Text) : Except FetchError (DbState × IndexState × Text × IngestTrace) :=
  if hasChunks env.chunkReadOk (getOrCreateDocument env.docUuid db url).1
      (getOrCreateDocument env.docUuid db url).2 then
    Except.ok ((getOrCreateDocument env.docUuid db url).1, index,
      (getOrCreateDocument env.docUuid db url).2, IngestTrace.mk 0 0 0)
  else
    match env.fetched with
    | .error e => Except.error e
    | .ok text =>
      Except.ok
        ((storeDocumentChunks env (getOrCreateDocument env.docUuid db url).1 index
            (getOrCreateDocument env.docUuid db url).2 (chunkText text)).1,
          (storeDocumentChunks env (getOrCreateDocument env.docUuid db url).1 index
            (getOrCreateDocument env.docUuid db url).2 (chunkText text)).2.1,
          (getOrCreateDocument env.docUuid db url).2, IngestTrace.mk 1 1 1)

/-!
Statement-side definitions and concrete fixtures
-/

/-- Claim C3's overlap-seed rule as stated: the last `chunk_overlap`
characters of the just-closed chunk; when that tail contains a space the seed
starts right after the first space; otherwise the full tail verbatim. -/
def claimOverlapSeed (c : Text) : Text :=
  if (c.drop (c.length - chunkOverlap)).contains ' ' then
    ((c.drop (c.length - chunkOverlap)).dropWhile (fun x => x ≠ ' ')).drop 1
  else c.drop (c.length - chunkOverlap)

/-- The corrected overlap-seed rule (claim C3 amended): a just-closed chunk
no longer than `chunk_overlap` is reused whole, with no word-boundary
trimming; otherwise the tail is the last `chunk_overlap` characters, and when
it contains a space the seed is the part after the first space with
surrounding whitespace stripped; a space-free tail is used verbatim. -/
def amendedOverlapSeed (c : Text) : Text :=
  if c.length ≤ chunkOverlap then c
  else if (c.drop (c.length - chunkOverlap)).contains ' ' then
    strip (((c.drop (c.length - chunkOverlap)).dropWhile (fun x => x ≠ ' ')).drop 1)
  else c.drop (c.length - chunkOverlap)

/-- Two 500-character sentences: the size check `len(current) + len(sentence)
> chunk_size` does not count the joining space, so they are merged into one
1001-character chunk. -/
def c2Text : Text :=
  List.replicate 500 'x' ++ '.' :: List.replicate 500 'y' ++ ['.']

/-- A 5-character first sentence followed by a 996-character one: the first
chunk `"ab cd"` is closed, and `_get_overlap_text` reuses it whole (it is
shorter than `chunk_overlap`), without trimming at its first space. -/
def c3Text : Text :=
  "ab cd.".toList ++ List.replicate 996 'x' ++ ['.']

/-- The empty persistence state. -/
def emptyDb : DbState := DbState.mk [] [] [] [] []

/-- A healthy environment whose document text chunks into one chunk. -/
def baseEnv : IngestEnv :=
  { fetched := Except.ok "hello there. bye now.".toList
    chunkReadOk := true
    upsertOk := true
    docUuid := "d".toList
    rowUuid := fun n => 'r' :: natText n
    vecSuffix := fun n => 's' :: natText n }

/-- Environment of a document whose raw page text is non-blank (so
`extract_text_from_url` succeeds) but normalizes to `"..."`, which
`chunk_text` turns into zero chunks. -/
def dotsEnv : IngestEnv := { baseEnv with fetched := Except.ok "...".toList }

/-- `baseEnv` with a failing `has_chunks` persistence read. -/
def failReadEnv : IngestEnv := { baseEnv with chunkReadOk := false }

/-- A persistence state where document `d` (url `u`) already owns one chunk
row. -/
def seededDb : DbState :=
  DbState.mk [("d".toList, "u".toList)]
    [ChunkRow.mk "c1".toList "d".toList 0 "t".toList "p1".toList] [] [] []

/-- Persistence state for claim C8: chunk row `c1` (vector id `p1`) belongs
to document `A`, while query `q1` was asked against document `B`. -/
def c8Db : DbState :=
  DbState.mk [("A".toList, "uA".toList), ("B".toList, "uB".toList)]
    [ChunkRow.mk "c1".toList "A".toList 0 "t".toList "p1".toList]
    [QueryRow.mk "q1".toList "B".toList "question".toList] [] []

/-- A retrieval match (global search) whose vector id resolves to document
`A`'s chunk. -/
def c8Match : RetrievalMatch :=
  RetrievalMatch.mk "p1".toList "text".toList 5 0 "A".toList

/-!
Helper lemmas
-/

theorem strip_length_le (t : Text) : (strip t).length ≤ t.length := by
  unfold strip
  rw [List.length_reverse]
  refine le_trans (List.dropWhile_suffix isSpaceChar).length_le ?_
  rw [List.length_reverse]
  exact (List.dropWhile_suffix isSpaceChar).length_le

theorem mem_strip {c : Char} {t : Text} (h : c ∈ strip t) : c ∈ t := by
  unfold strip at h
  rw [List.mem_reverse] at h
  have h2 := (List.dropWhile_suffix isSpaceChar).subset h
  rw [List.mem_reverse] at h2
  exact (List.dropWhile_suffix isSpaceChar).subset h2

theorem getOverlapText_length_le (t : Text) :
    (getOverlapText t).length ≤ chunkOverlap := by
  unfold getOverlapText
  split
  · next h => exact h
  · next h =>
    split
    · refine le_trans (strip_length_le _) ?_
      refine le_trans (List.dropWhile_suffix (fun c => c ≠ ' ')).length_le ?_
      rw [List.length_drop]
      omega
    · rw [List.length_drop]
      omega

theorem mem_getOverlapText {c : Char} {t : Text} (h : c ∈ getOverlapText t) :
    c ∈ t := by
  unfold getOverlapText at h
  split at h
  · exact h
  · split at h
    · exact List.mem_of_mem_drop ((List.dropWhile_suffix _).subset (mem_strip h))
    · exact List.mem_of_mem_drop h

/-!
Normalization lemmas (claim C7)
-/

theorem stripSpecial_eq_spec (t : Text) :
    stripSpecial t = specRemoveDisallowed t := by
  induction t with
  | nil => rfl
  | cons c rest ih =>
    by_cases h : isAllowedChar c = true
    · simpa [stripSpecial, List.filter_cons, specRemoveDisallowed, h] using ih
    · simpa [stripSpecial, List.filter_cons, specRemoveDisallowed, h] using ih

theorem specCollapseWs_true (t : Text) :
    specCollapseWs true t = specCollapseWs false (t.dropWhile isSpaceChar) := by
  induction t with
  | nil => rfl
  | cons c rest ih =>
    by_cases h : isSpaceChar c = true
    · rw [List.dropWhile_cons_of_pos h]
      simpa [specCollapseWs, h] using ih
    · rw [List.dropWhile_cons_of_neg (by simp [h])]
      simp [specCollapseWs, h]

theorem collapseWs_eq_spec (t : Text) :
    collapseWs t = specCollapseWs false t := by
  induction t using collapseWs.induct with
  | case1 => simp [collapseWs, specCollapseWs]
  | case2 c rest h ih =>
    rw [collapseWs, if_pos h, ih, ← specCollapseWs_true]
    simp [specCollapseWs, h]
  | case3 c rest h ih =>
    rw [collapseWs, if_neg h, ih]
    simp [specCollapseWs, h]

theorem takeWhile_dots_replicate (l : Text) :
    l.takeWhile (fun x => x = '.') =
      List.replicate (l.takeWhile (fun x => x = '.')).length '.' := by
  refine List.eq_replicate_length.mpr ?_
  intro b hb
  simpa using List.mem_takeWhile_imp hb

theorem specCollapseDots_run (t : Text) : ∀ n : Nat,
    specCollapseDots n t =
      List.replicate (min ((t.takeWhile (fun x => x = '.')).length) (3 - min n 3)) '.' ++
        specCollapseDots 0 (t.dropWhile (fun x => x = '.')) := by
  induction t with
  | nil => intro n; simp [specCollapseDots]
  | cons c rest ih =>
    intro n
    by_cases h : c = '.'
    · subst h
      rw [List.takeWhile_cons_of_pos (by simp), List.dropWhile_cons_of_pos (by simp)]
      by_cases hn : n < 3
      · have hmin : min ('.' :: rest.takeWhile (fun x => x = '.')).length (3 - min n 3) =
            min ((rest.takeWhile (fun x => x = '.')).length) (3 - min (n + 1) 3) + 1 := by
          simp only [List.length_cons, min_def]
          split_ifs <;> omega
        rw [hmin, List.replicate_succ]
        simp only [specCollapseDots, if_pos rfl, if_pos hn, List.cons_append]
        rw [ih (n + 1)]
        simp
      · have hmin : min ('.' :: rest.takeWhile (fun x => x = '.')).length (3 - min n 3) = 0 := by
          simp only [List.length_cons, min_def]
          split_ifs <;> omega
        have hmin2 : min ((rest.takeWhile (fun x => x = '.')).length) (3 - min (n + 1) 3) = 0 := by
          simp only [min_def]
          split_ifs <;> omega
        rw [hmin, List.replicate_zero, List.nil_append]
        simp only [specCollapseDots, if_pos rfl, if_neg hn]
        rw [ih (n + 1), hmin2, List.replicate_zero, List.nil_append]
        simp
    · rw [List.takeWhile_cons_of_neg (by simp [h]), List.dropWhile_cons_of_neg (by simp [h])]
      simp [specCollapseDots, h]

theorem collapseDots_eq_spec (t : Text) :
    collapseDots t = specCollapseDots 0 t := by
  induction t using collapseDots.induct with
  | case1 => simp [collapseDots, specCollapseDots]
  | case2 rest ih =>
    rw [collapseDots, if_pos rfl, ih, specCollapseDots_run ('.' :: rest) 0,
      List.dropWhile_cons_of_pos (by simp), List.takeWhile_cons_of_pos (by simp)]
    congr 1
    by_cases h3 : 3 ≤ 1 + (rest.takeWhile (fun x => x = '.')).length
    · rw [if_pos h3]
      have hm : min ('.' :: rest.takeWhile (fun x => x = '.')).length (3 - min 0 3) = 3 := by
        simp only [List.length_cons, min_def]
        split_ifs <;> omega
      rw [hm]
      rfl
    · rw [if_neg h3]
      have hm : min ('.' :: rest.takeWhile (fun x => x = '.')).length (3 - min 0 3) =
          (rest.takeWhile (fun x => x = '.')).length + 1 := by
        simp only [List.length_cons, min_def]
        split_ifs <;> omega
      rw [hm, List.replicate_succ]
      congr 1
      exact takeWhile_dots_replicate rest
  | case3 c rest h ih =>
    rw [collapseDots, if_neg h, ih]
    simp [specCollapseDots, h]

/-!
Overlap-seed lemmas (claim C3)
-/

theorem strip_space_cons (r : Text) : strip (' ' :: r) = strip r := by
  unfold strip
  rw [List.dropWhile_cons_of_pos (by simp [isSpaceChar])]

theorem strip_dropWhile_space (l : Text) (h : l.contains ' ' = true) :
    strip (l.dropWhile (fun c => c ≠ ' ')) =
      strip ((l.dropWhile (fun c => c ≠ ' ')).drop 1) := by
  induction l with
  | nil => simp at h
  | cons c rest ih =>
    by_cases hc : c = ' '
    · subst hc
      rw [List.dropWhile_cons_of_neg (by simp)]
      exact strip_space_cons rest
    · rw [List.dropWhile_cons_of_pos (by simp [hc])]
      refine ih ?_
      have h2 : ' ' = c ∨ ' ' ∈ rest := by simpa [List.contains_cons] using h
      rcases h2 with h2 | h2
      · exact absurd h2.symm hc
      · simpa using h2

theorem getOverlapText_eq_amended (c : Text) :
    getOverlapText c = amendedOverlapSeed c := by
  unfold getOverlapText amendedOverlapSeed
  by_cases h : c.length ≤ chunkOverlap
  · rw [if_pos h, if_pos h]
  · rw [if_neg h, if_neg h]
    by_cases hsp : (c.drop (c.length - chunkOverlap)).contains ' ' = true
    · rw [if_pos hsp, if_pos hsp]
      exact strip_dropWhile_space _ hsp
    · rw [if_neg hsp, if_neg hsp]

theorem chunkLoop_seam (chunks : List Text) (current s : Text) (rest : List Text)
    (hne : current ≠ []) (hover : current.length + s.length > chunkSize) :
    chunkLoop chunks current (s :: rest) =
      chunkLoop (chunks ++ [strip current]) (getOverlapText current ++ ' ' :: s) rest := by
  rw [chunkLoop, if_pos hover, if_pos hne]

/-!
Chunk length invariant (claim C2)
-/

theorem chunkLoop_length_bound (L : Nat) :
    ∀ (sents chunks : List Text) (current : Text),
      (∀ s ∈ sents, s.length ≤ L) →
      (∀ c ∈ chunks, c.length ≤ chunkSize + 1 ∨ c.length ≤ chunkOverlap + 1 + L) →
      (current.length ≤ chunkSize + 1 ∨ current.length ≤ chunkOverlap + 1 + L) →
      ∀ c ∈ chunkLoop chunks current sents,
        c.length ≤ chunkSize + 1 ∨ c.length ≤ chunkOverlap + 1 + L := by
  intro sents
  induction sents with
  | nil =>
    intro chunks current _ hchunks hcur c hc
    rw [chunkLoop] at hc
    by_cases hne : current ≠ []
    · rw [if_pos hne] at hc
      rcases List.mem_append.mp hc with h | h
      · exact hchunks c h
      · have hx := List.mem_singleton.mp h
        subst hx
        have hs := strip_length_le current
        omega
    · rw [if_neg hne] at hc
      exact hchunks c hc
  | cons s rest ih =>
    intro chunks current hs hchunks hcur c hc
    have hsL : s.length ≤ L := hs s (by simp)
    have hrest : ∀ x ∈ rest, x.length ≤ L := fun x hx => hs x (by simp [hx])
    rw [chunkLoop] at hc
    by_cases hover : current.length + s.length > chunkSize
    · rw [if_pos hover] at hc
      by_cases hne : current ≠ []
      · rw [if_pos hne] at hc
        refine ih _ _ hrest ?_ ?_ c hc
        · intro x hx
          rcases List.mem_append.mp hx with h | h
          · exact hchunks x h
          · have hx2 := List.mem_singleton.mp h
            subst hx2
            have := strip_length_le current
            omega
        · right
          rw [List.length_append, List.length_cons]
          have := getOverlapText_length_le current
          omega
      · rw [if_neg hne] at hc
        refine ih _ _ hrest hchunks ?_ c hc
        right
        omega
    · rw [if_neg hover] at hc
      refine ih _ _ hrest hchunks ?_ c hc
      by_cases hne : current ≠ []
      · rw [if_pos hne]
        left
        rw [List.length_append, List.length_cons]
        omega
      · rw [if_neg hne]
        left
        omega

/-!
Terminator-free chunks (claim C10)
-/

theorem split_no_term (n : Nat) :
    ∀ t : Text, t.length ≤ n →
      ((∀ acc : Text, (∀ ch ∈ acc, isTerminator ch = false) →
        ∀ p ∈ splitTermGo t acc, ∀ ch ∈ p, isTerminator ch = false) ∧
      (∀ p ∈ splitTermSkip t, ∀ ch ∈ p, isTerminator ch = false)) := by
  induction n with
  | zero =>
    intro t ht
    have ht0 : t = [] := List.eq_nil_of_length_eq_zero (Nat.le_zero.mp ht)
    subst ht0
    constructor
    · intro acc hacc p hp ch hch
      rw [splitTermGo] at hp
      have hp2 := List.mem_singleton.mp hp
      subst hp2
      exact hacc ch (List.mem_reverse.mp hch)
    · intro p hp ch hch
      rw [splitTermSkip] at hp
      have hp2 := List.mem_singleton.mp hp
      subst hp2
      simp at hch
  | succ n ih =>
    intro t ht
    cases t with
    | nil =>
      constructor
      · intro acc hacc p hp ch hch
        rw [splitTermGo] at hp
        have hp2 := List.mem_singleton.mp hp
        subst hp2
        exact hacc ch (List.mem_reverse.mp hch)
      · intro p hp ch hch
        rw [splitTermSkip] at hp
        have hp2 := List.mem_singleton.mp hp
        subst hp2
        simp at hch
    | cons c rest =>
      have hrest : rest.length ≤ n := by
        simp only [List.length_cons] at ht
        omega
      constructor
      · intro acc hacc p hp ch hch
        rw [splitTermGo] at hp
        by_cases hterm : isTerminator c = true
        · rw [if_pos hterm] at hp
          rcases List.mem_cons.mp hp with hp | hp
          · subst hp
            exact hacc ch (List.mem_reverse.mp hch)
          · exact (ih rest hrest).2 p hp ch hch
        · rw [if_neg hterm] at hp
          refine (ih rest hrest).1 (c :: acc) ?_ p hp ch hch
          intro x hx
          rcases List.mem_cons.mp hx with hx | hx
          · subst hx
            simpa using hterm
          · exact hacc x hx
      · intro p hp ch hch
        rw [splitTermSkip] at hp
        by_cases hterm : isTerminator c = true
        · rw [if_pos hterm] at hp
          exact (ih rest hrest).2 p hp ch hch
        · rw [if_neg hterm] at hp
          refine (ih rest hrest).1 [c] ?_ p hp ch hch
          intro x hx
          have hx2 := List.mem_singleton.mp hx
          subst hx2
          simpa using hterm

theorem sentences_no_term (t : Text) :
    ∀ s ∈ splitIntoSentences t, ∀ ch ∈ s, isTerminator ch = false := by
  intro s hs ch hch
  unfold splitIntoSentences at hs
  obtain ⟨p, hp, rfl⟩ := List.mem_map.mp (List.mem_filter.mp hs).1
  exact (split_no_term t.length t le_rfl).1 [] (by simp) p hp ch (mem_strip hch)

theorem chunkLoop_no_term :
    ∀ (sents chunks : List Text) (current : Text),
      (∀ s ∈ sents, ∀ ch ∈ s, isTerminator ch = false) →
      (∀ c ∈ chunks, ∀ ch ∈ c, isTerminator ch = false) →
      (∀ ch ∈ current, isTerminator ch = false) →
      ∀ c ∈ chunkLoop chunks current sents, ∀ ch ∈ c, isTerminator ch = false := by
  intro sents
  induction sents with
  | nil =>
    intro chunks current _ hchunks hcur c hc ch hch
    rw [chunkLoop] at hc
    by_cases hne : current ≠ []
    · rw [if_pos hne] at hc
      rcases List.mem_append.mp hc with h | h
      · exact hchunks c h ch hch
      · have hx := List.mem_singleton.mp h
        subst hx
        exact hcur ch (mem_strip hch)
    · rw [if_neg hne] at hc
      exact hchunks c hc ch hch
  | cons s rest ih =>
    intro chunks current hs hchunks hcur c hc ch hch
    have hsT : ∀ x ∈ s, isTerminator x = false := hs s (by simp)
    have hrest : ∀ x ∈ rest, ∀ y ∈ x, isTerminator y = false :=
      fun x hx => hs x (by simp [hx])
    rw [chunkLoop] at hc
    by_cases hover : current.length + s.length > chunkSize
    · rw [if_pos hover] at hc
      by_cases hne : current ≠ []
      · rw [if_pos hne] at hc
        refine ih _ _ hrest ?_ ?_ c hc ch hch
        · intro x hx
          rcases List.mem_append.mp hx with h | h
          · exact hchunks x h
          · have hx2 := List.mem_singleton.mp h
            subst hx2
            exact fun y hy => hcur y (mem_strip hy)
        · intro y hy
          rcases List.mem_append.mp hy with h | h
          · exact hcur y (mem_getOverlapText h)
          · rcases List.mem_cons.mp h with h | h
            · subst h
              rfl
            · exact hsT y h
      · rw [if_neg hne] at hc
        exact ih _ _ hrest hchunks hsT c hc ch hch
    · rw [if_neg hover] at hc
      refine ih _ _ hrest hchunks ?_ c hc ch hch
      by_cases hne : current ≠ []
      · rw [if_pos hne]
        intro y hy
        rcases List.mem_append.mp hy with h | h
        · exact hcur y h
        · rcases List.mem_cons.mp h with h | h
          · subst h
            rfl
          · exact hsT y h
      · rw [if_neg hne]
        exact hsT

/-!
Claim theorems
-/

/-- Claim C7: for every input string, `_clean_text` returns exactly the
result of, in order, collapsing every whitespace run to a single space,
removing every character outside word characters, whitespace and the
punctuation set `. , ; : ! ? ( ) -`, collapsing every run of three or more
consecutive periods to an ellipsis, and trimming surrounding whitespace; as
a pure function of its input it is deterministic. -/
theorem cleanText_matches_spec : ∀ t : Text, cleanText t = specNormalize t := by
  intro t
  unfold cleanText specNormalize
  rw [collapseWs_eq_spec, stripSpecial_eq_spec, collapseDots_eq_spec]

set_option maxRecDepth 100000 in
/-- Claim C2 as stated is false: `c2Text` consists of two 500-character
sentences; `chunk_text` merges them into a single 1001-character chunk
(the size check `len(current_chunk) + len(sentence) > 1000` does not count
the joining space), which exceeds `max_chunk_len = 1000` although no
sentence of the text is longer than 1000 characters. -/
theorem chunk_length_cex :
    chunkText c2Text = [List.replicate 500 'x' ++ ' ' :: List.replicate 500 'y'] ∧
    (List.replicate 500 'x' ++ ' ' :: List.replicate 500 'y').length = 1001 ∧
    splitIntoSentences c2Text = [List.replicate 500 'x', List.replicate 500 'y'] := by
  refine ⟨by decide, by decide, by decide⟩

/-- Claim C2 (amended): with `max_chunk_len = 1000` and `overlap_len = 200`,
every chunk produced by `chunk_text` has length at most 1001 characters —
the size check does not count the joining space — or, when it holds an
oversize sentence (possibly behind an overlap seed and a joining space), at
most 201 characters more than the longest sentence of the text. -/
theorem chunk_length_bound_amended :
    ∀ (t : Text) (L : Nat), (∀ s ∈ splitIntoSentences t, s.length ≤ L) →
      ∀ c ∈ chunkText t,
        c.length ≤ chunkSize + 1 ∨ c.length ≤ chunkOverlap + 1 + L := by
  intro t L hL c hc
  exact chunkLoop_length_bound L (splitIntoSentences t) [] [] hL (by simp)
    (by left; simp [chunkSize]) c hc

theorem chunk_length_bound_amended_witness :
    (∀ s ∈ splitIntoSentences "hello there. bye now.".toList, s.length ≤ 11) ∧
    ("hello there bye now".toList.length ≤ chunkSize + 1 ∨
      "hello there bye now".toList.length ≤ chunkOverlap + 1 + 11) :=
  ⟨by decide, chunk_length_bound_amended "hello there. bye now.".toList 11
    (by decide) "hello there bye now".toList (by decide)⟩

set_option maxRecDepth 100000 in
/-- Claim C3 as stated is false: for `c3Text`, the chunk `"ab cd"` is closed
because appending the 996-character sentence would exceed `max_chunk_len`,
and the claim's rule predicts the next chunk is seeded with `"cd"` (the tail
trimmed past its first space); but `_get_overlap_text` returns a chunk no
longer than `overlap_len` whole, so the next chunk is
`"ab cd " ++ 996 x's`, not `"cd " ++ 996 x's`. -/
theorem overlap_seam_cex :
    splitIntoSentences c3Text = ["ab cd".toList, List.replicate 996 'x'] ∧
    chunkText c3Text = ["ab cd".toList, "ab cd ".toList ++ List.replicate 996 'x'] ∧
    claimOverlapSeed "ab cd".toList = "cd".toList ∧
    "ab cd ".toList ++ List.replicate 996 'x' ≠
      claimOverlapSeed "ab cd".toList ++ ' ' :: List.replicate 996 'x' := by
  refine ⟨by decide, by decide, by decide, by decide⟩

/-- Claim C3 (amended): whenever `chunk_text` closes a chunk because
appending the next sentence would exceed `max_chunk_len`, the next chunk is
seeded with the overlap text of the just-closed chunk followed by a space
and the sentence; and the overlap text is: the whole chunk verbatim when it
is at most `overlap_len` characters long, otherwise the last `overlap_len`
characters trimmed — when that tail contains a space — to the part after its
first space with surrounding whitespace stripped, or the full tail verbatim
when it contains no space. -/
theorem overlap_seam_amended :
    (∀ (chunks : List Text) (current s : Text) (rest : List Text),
      current ≠ [] → current.length + s.length > chunkSize →
      chunkLoop chunks current (s :: rest) =
        chunkLoop (chunks ++ [strip current]) (getOverlapText current ++ ' ' :: s) rest) ∧
    (∀ c : Text, getOverlapText c = amendedOverlapSeed c) :=
  ⟨chunkLoop_seam, getOverlapText_eq_amended⟩

set_option maxRecDepth 100000 in
theorem overlap_seam_amended_witness :
    chunkLoop [] "ab cd".toList [List.replicate 996 'x'] =
      chunkLoop [strip "ab cd".toList]
        (getOverlapText "ab cd".toList ++ ' ' :: List.replicate 996 'x') [] ∧
    getOverlapText "ab cd".toList = amendedOverlapSeed "ab cd".toList :=
  ⟨overlap_seam_amended.1 [] "ab cd".toList (List.replicate 996 'x') []
      (by decide) (by decide),
    overlap_seam_amended.2 "ab cd".toList⟩

/-- Claim C10: no chunk produced by `chunk_text` contains `.`, `!` or `?` —
the sentence splitter consumes every run of these terminators as delimiters,
and chunks are rebuilt from the remaining fragments, joining spaces and
overlap tails of previous chunks only. -/
theorem chunks_no_terminators :
    ∀ (t c : Text), c ∈ chunkText t → ∀ ch ∈ c,
      ch ≠ '.' ∧ ch ≠ '!' ∧ ch ≠ '?' := by
  intro t c hc ch hch
  have h := chunkLoop_no_term (splitIntoSentences t) [] [] (sentences_no_term t)
    (by simp) (by simp) c hc ch hch
  have h2 : (¬ch = '.' ∧ ¬ch = '!') ∧ ¬ch = '?' := by simpa [isTerminator] using h
  exact ⟨h2.1.1, h2.1.2, h2.2⟩

theorem chunks_no_terminators_witness :
    'h' ≠ '.' ∧ 'h' ≠ '!' ∧ 'h' ≠ '?' :=
  chunks_no_terminators "hello there. bye now.".toList
    "hello there bye now".toList (by decide) 'h' (by decide)

/-- Claim C5: against an endpoint that always answers HTTP 503 — which the
mounted retry adapter converts, per attempt, into a surfaced
`RetryError`-style generic exception — the download loop of
`extract_text_from_url` makes exactly 3 `session.get` attempts, sleeps
`2 ** 0 = 1` second after attempt 0 and `2 ** 1 = 2` seconds after attempt 1
(none after the last), a total wait of 3 seconds not counting request
latency, and then fails by re-raising the upstream failure. -/
theorem fetch_retry_bound_503 :
    downloadPdf (fun _ => FetchOutcome.otherErr) =
      (Except.error FetchError.upstreamFailure, [1, 2], 3) ∧
    (downloadPdf (fun _ => FetchOutcome.otherErr)).2.1.sum = 3 := by
  refine ⟨rfl, rfl⟩

/-- Claim C4: with the vector store unavailable (`self.index is None`),
`search_similar_chunks` returns an empty sequence and never raises, and
`store_chunks` returns exactly one placeholder id per input chunk, each
prefixed `local_`; when an exception interrupts a real upsert,
`store_chunks` returns one `fallback_`-prefixed id per chunk, and when one
interrupts a real query, `search_similar_chunks` returns an empty
sequence. -/
theorem degraded_mode_behavior :
    (∀ (queryOk : Bool) (resp : List (PineconeVector × Score)),
      searchSimilarChunks none queryOk resp = []) ∧
    (∀ (vecs : List PineconeVector) (resp : List (PineconeVector × Score)),
      searchSimilarChunks (some vecs) false resp = []) ∧
    (∀ (upsertOk : Bool) (suffix : Nat → Text) (chunks : List Text) (documentId : Text),
      (storeChunks none upsertOk suffix chunks documentId).2.length = chunks.length ∧
      ∀ id ∈ (storeChunks none upsertOk suffix chunks documentId).2,
        ∃ rest, id = "local_".toList ++ rest) ∧
    (∀ (vecs : List PineconeVector) (suffix : Nat → Text) (chunks : List Text)
        (documentId : Text),
      (storeChunks (some vecs) false suffix chunks documentId).2.length = chunks.length ∧
      ∀ id ∈ (storeChunks (some vecs) false suffix chunks documentId).2,
        ∃ rest, id = "fallback_".toList ++ rest) := by
  refine ⟨fun _ _ => rfl, fun _ _ => rfl, ?_, ?_⟩
  · intro upsertOk suffix chunks documentId
    constructor
    · simp [storeChunks]
    · intro id hid
      simp only [storeChunks] at hid
      obtain ⟨i, _, rfl⟩ := List.mem_map.mp hid
      exact ⟨_, rfl⟩
  · intro vecs suffix chunks documentId
    constructor
    · simp [storeChunks]
    · intro id hid
      simp only [storeChunks, if_neg (by simp : ¬ (false = true))] at hid
      obtain ⟨i, _, rfl⟩ := List.mem_map.mp hid
      exact ⟨_, rfl⟩

theorem degraded_mode_behavior_witness :
    searchSimilarChunks none true [] = [] ∧
    searchSimilarChunks (some []) false [] = [] ∧
    (storeChunks none true (fun _ => "s".toList) ["aa".toList] "d".toList).2.length =
      (["aa".toList] : List Text).length ∧
    (∃ rest, "local_d_0_s".toList = "local_".toList ++ rest) ∧
    (∃ rest, "fallback_d_0_s".toList = "fallback_".toList ++ rest) :=
  ⟨degraded_mode_behavior.1 true [],
    degraded_mode_behavior.2.1 [] [],
    (degraded_mode_behavior.2.2.1 true (fun _ => "s".toList) ["aa".toList] "d".toList).1,
    (degraded_mode_behavior.2.2.1 true (fun _ => "s".toList) ["aa".toList] "d".toList).2
      "local_d_0_s".toList (by decide),
    (degraded_mode_behavior.2.2.2 [] (fun _ => "s".toList) ["aa".toList] "d".toList).2
      "fallback_d_0_s".toList (by decide)⟩

/-- Claim C9: `has_chunks` returns `False` whenever the persistence read
raises — even when chunk rows exist for the document — so a failing chunk
lookup is treated as "document not ingested" and the ingestion phase of
`process_document_queries` re-runs the full fetch/extract/chunk/embed/upsert
pipeline for the URL instead of surfacing the persistence error. -/
theorem has_chunks_error_reingests :
    (∀ (db : DbState) (documentId : Text), hasChunks false db documentId = false) ∧
    (∀ (env : IngestEnv) (db : DbState) (index : IndexState) (url t : Text),
      env.chunkReadOk = false → env.fetched = Except.ok t →
      ∃ out : DbState × IndexState × Text × IngestTrace,
        ensureIngested env db index url = Except.ok out ∧
          out.2.2.2 = IngestTrace.mk 1 1 1) := by
  constructor
  · intro db documentId
    rfl
  · intro env db index url t hread hfetch
    unfold ensureIngested
    rw [hread, hfetch]
    exact ⟨_, rfl, rfl⟩

theorem has_chunks_error_reingests_witness :
    hasChunks false seededDb "d".toList = false ∧
    ∃ out : DbState × IndexState × Text × IngestTrace,
      ensureIngested failReadEnv emptyDb (some []) "u".toList = Except.ok out ∧
        out.2.2.2 = IngestTrace.mk 1 1 1 :=
  ⟨has_chunks_error_reingests.1 seededDb "d".toList,
    has_chunks_error_reingests.2 failReadEnv emptyDb (some []) "u".toList
      "hello there. bye now.".toList rfl rfl⟩

theorem getOrCreate_found (newId : Text) (db : DbState) (url : Text)
    (d : Text × Text) (h : db.documents.find? (fun x => x.2 = url) = some d) :
    getOrCreateDocument newId db url = (db, d.1) := by
  unfold getOrCreateDocument
  rw [h]

theorem getOrCreate_resolves (newId : Text) (db : DbState) (url : Text)
    (db1 : DbState) (docId : Text)
    (h : getOrCreateDocument newId db url = (db1, docId)) :
    ∃ d : Text × Text,
      db1.documents.find? (fun x => x.2 = url) = some d ∧ d.1 = docId := by
  unfold getOrCreateDocument at h
  cases hf : db.documents.find? (fun x => x.2 = url) with
  | some d =>
    rw [hf] at h
    injection h with h1 h2
    subst h1
    exact ⟨d, hf, h2⟩
  | none =>
    rw [hf] at h
    injection h with h1 h2
    subst h1
    refine ⟨(newId, url), ?_, h2⟩
    show (db.documents ++ [(newId, url)]).find? (fun x => x.2 = url) = some (newId, url)
    rw [List.find?_append, hf]
    simp [List.find?]

theorem getOrCreate_chunks_eq (newId : Text) (db : DbState) (url : Text)
    (db1 : DbState) (docId : Text)
    (h : getOrCreateDocument newId db url = (db1, docId)) :
    db1.chunks = db.chunks := by
  unfold getOrCreateDocument at h
  cases hf : db.documents.find? (fun x => x.2 = url) with
  | some d =>
    rw [hf] at h
    injection h with h1 _
    subst h1
    rfl
  | none =>
    rw [hf] at h
    injection h with h1 _
    subst h1
    rfl

/-- Claim C1 (amended): if the persistence collaborator reports existing
chunks for the resolved document id, the ingestion phase of
`process_document_queries` short-circuits — no fetch/extract, no chunking,
no embed/upsert, chunk rows and vector state unchanged.  Hence, provided a
call leaves at least one chunk row for the resolved document (which a
successful ingestion does exactly when the chunker output was nonempty), a
second sequential call with a healthy persistence read performs no
fetch/extract/chunk/embed work and leaves both states exactly as they were.
A document whose extracted text yields zero chunks is re-processed by every
call — see the counterexample. -/
theorem ensure_ingested_idempotent_amended :
    (∀ (env : IngestEnv) (db db1 : DbState) (index : IndexState) (url docId : Text),
      getOrCreateDocument env.docUuid db url = (db1, docId) →
      hasChunks env.chunkReadOk db1 docId = true →
      ensureIngested env db index url =
        Except.ok (db1, index, docId, IngestTrace.mk 0 0 0) ∧
      db1.chunks = db.chunks) ∧
    (∀ (env env2 : IngestEnv) (db : DbState) (index : IndexState) (url : Text)
        (out : DbState × IndexState × Text × IngestTrace),
      ensureIngested env db index url = Except.ok out →
      env2.chunkReadOk = true →
      (out.1.chunks.filter (fun r => r.documentId = out.2.2.1)).length > 0 →
      ensureIngested env2 out.1 out.2.1 url =
        Except.ok (out.1, out.2.1, out.2.2.1, IngestTrace.mk 0 0 0)) := by
  constructor
  · intro env db db1 index url docId hg hhas
    refine ⟨?_, getOrCreate_chunks_eq env.docUuid db url db1 docId hg⟩
    unfold ensureIngested
    rw [hg]
    simp [hhas]
  · intro env env2 db index url out h hread hrows
    rcases hgp : getOrCreateDocument env.docUuid db url with ⟨db1, docId⟩
    obtain ⟨d, hfind, hd1⟩ := getOrCreate_resolves env.docUuid db url db1 docId hgp
    subst hd1
    unfold ensureIngested at h
    rw [hgp] at h
    by_cases hhas : hasChunks env.chunkReadOk db1 d.1 = true
    · simp only [hhas, if_true] at h
      injection h with hout
      subst hout
      have hg2 := getOrCreate_found env2.docUuid db1 url d hfind
      unfold ensureIngested
      rw [hg2]
      have hhas2 : hasChunks env2.chunkReadOk db1 d.1 = true := by
        unfold hasChunks
        rw [hread]
        simpa using hrows
      simp [hhas2]
    · simp only [hhas, if_false, Bool.not_eq_true] at h
      rw [if_neg (by simp [hhas])] at h
      cases hfe : env.fetched with
      | error e =>
        rw [hfe] at h
        exact absurd h (by simp)
      | ok text =>
        rw [hfe] at h
        injection h with hout
        subst hout
        have hdocs : (storeDocumentChunks env db1 index d.1 (chunkText text)).1.documents =
            db1.documents := rfl
        have hg2 := getOrCreate_found env2.docUuid
          (storeDocumentChunks env db1 index d.1 (chunkText text)).1 url d
          (by rw [hdocs]; exact hfind)
        unfold ensureIngested
        rw [hg2]
        have hhas2 : hasChunks env2.chunkReadOk
            (storeDocumentChunks env db1 index d.1 (chunkText text)).1 d.1 = true := by
          unfold hasChunks
          rw [hread]
          simpa using hrows
        simp [hhas2]

/-- Claim C1 as stated is false for a document whose (successfully
extracted) raw text normalizes to `"..."`: `chunk_text` produces zero
chunks, the first call persists no chunk rows, and the second sequential
call finds `has_chunks` false and re-runs the full
fetch/extract/chunk/embed/upsert pipeline — its work trace is
`⟨1, 1, 1⟩` where the claim demands no fetch/extract/chunk/embed work. -/
theorem ensure_ingested_cex :
    ensureIngested dotsEnv emptyDb (some []) "u".toList =
      Except.ok (DbState.mk [("d".toList, "u".toList)] [] [] [] [],
        some [], "d".toList, IngestTrace.mk 1 1 1) ∧
    ensureIngested dotsEnv (DbState.mk [("d".toList, "u".toList)] [] [] [] [])
        (some []) "u".toList =
      Except.ok (DbState.mk [("d".toList, "u".toList)] [] [] [] [],
        some [], "d".toList, IngestTrace.mk 1 1 1) :=
  ⟨rfl, rfl⟩

theorem storeChunks_length (index : IndexState) (upsertOk : Bool)
    (suffix : Nat → Text) (chunks : List Text) (documentId : Text) :
    (storeChunks index upsertOk suffix chunks documentId).2.length = chunks.length := by
  cases index with
  | none => simp [storeChunks]
  | some vecs =>
    by_cases h : upsertOk = true
    · simp [storeChunks, h]
    · simp [storeChunks, h]

theorem rows_map_index (env : IngestEnv) (documentId : Text)
    (l : List (Text × Text)) :
    ((l.enum.map (fun p => ChunkRow.mk (env.rowUuid p.1) documentId p.1 p.2.1 p.2.2)).map
      (fun r => r.chunkIndex)) = List.range l.length := by
  rw [List.map_map]
  have hc : ((fun r => ChunkRow.chunkIndex r) ∘
      fun p => ChunkRow.mk (env.rowUuid p.1) documentId p.1 p.2.1 p.2.2) =
      (Prod.fst : Nat × Text × Text → Nat) := by
    funext p
    rfl
  rw [hc, List.enum_map_fst]

theorem rows_map_text (env : IngestEnv) (documentId : Text)
    (l : List (Text × Text)) :
    ((l.enum.map (fun p => ChunkRow.mk (env.rowUuid p.1) documentId p.1 p.2.1 p.2.2)).map
      (fun r => r.chunkText)) = l.map Prod.fst := by
  rw [List.map_map]
  have hc : ((fun r => ChunkRow.chunkText r) ∘
      fun p => ChunkRow.mk (env.rowUuid p.1) documentId p.1 p.2.1 p.2.2) =
      ((Prod.fst ∘ Prod.snd : Nat × Text × Text → Text)) := by
    funext p
    rfl
  rw [hc, ← List.map_map, List.enum_map_snd]

theorem rows_map_pid (env : IngestEnv) (documentId : Text)
    (l : List (Text × Text)) :
    ((l.enum.map (fun p => ChunkRow.mk (env.rowUuid p.1) documentId p.1 p.2.1 p.2.2)).map
      (fun r => r.pineconeId)) = l.map Prod.snd := by
  rw [List.map_map]
  have hc : ((fun r => ChunkRow.pineconeId r) ∘
      fun p => ChunkRow.mk (env.rowUuid p.1) documentId p.1 p.2.1 p.2.2) =
      ((Prod.snd ∘ Prod.snd : Nat × Text × Text → Text)) := by
    funext p
    rfl
  rw [hc, ← List.map_map, List.enum_map_snd]

/-- Claim C6: `store_chunks` returns exactly one generated id per input
chunk, in input order (on the real-upsert path the `i`-th id is of the form
`{document_id}_{i}_{suffix}`), and `_store_document_chunks` zips the ids
against the chunks, so the persisted rows keep the pre-existing rows intact
and carry `chunk_index` values exactly `0, 1, ..., N-1` in the chunker's
output order, each row pairing the `i`-th chunk text with the `i`-th
generated id. -/
theorem chunk_ordinals_dense :
    ∀ (env : IngestEnv) (db : DbState) (index : IndexState) (documentId : Text)
      (chunks : List Text) (out : DbState × IndexState × List Text),
      storeDocumentChunks env db index documentId chunks = out →
      out.2.2.length = chunks.length ∧
      out.1.chunks.take db.chunks.length = db.chunks ∧
      (out.1.chunks.drop db.chunks.length).map (fun r => r.chunkIndex) =
        List.range chunks.length ∧
      (out.1.chunks.drop db.chunks.length).map (fun r => r.chunkText) = chunks ∧
      (out.1.chunks.drop db.chunks.length).map (fun r => r.pineconeId) = out.2.2 ∧
      (∀ vecs : List PineconeVector, index = some vecs → env.upsertOk = true →
        out.2.2 = (List.range chunks.length).map
          (fun i => pineconeIdOf documentId i (env.vecSuffix i))) := by
  intro env db index documentId chunks out h
  subst h
  have hlen : (storeChunks index env.upsertOk env.vecSuffix chunks documentId).2.length =
      chunks.length := storeChunks_length index env.upsertOk env.vecSuffix chunks documentId
  have hzip : (chunks.zip
      (storeChunks index env.upsertOk env.vecSuffix chunks documentId).2).length =
      chunks.length := by
    rw [List.length_zip, hlen]
    exact Nat.min_self chunks.length
  refine ⟨hlen, ?_, ?_, ?_, ?_, ?_⟩
  · exact List.take_left ..
  · show ((db.chunks ++ _).drop db.chunks.length).map _ = _
    rw [List.drop_left, rows_map_index, hzip]
  · show ((db.chunks ++ _).drop db.chunks.length).map _ = _
    rw [List.drop_left, rows_map_text, List.map_fst_zip _ _ hlen.ge]
  · show ((db.chunks ++ _).drop db.chunks.length).map _ = _
    rw [List.drop_left, rows_map_pid, List.map_snd_zip _ _ hlen.le]
    rfl
  · intro vecs hvecs hup
    subst hvecs
    show (storeChunks (some vecs) env.upsertOk env.vecSuffix chunks documentId).2 = _
    rw [hup]
    simp [storeChunks]

theorem chunk_ordinals_dense_witness :
    (storeDocumentChunks baseEnv emptyDb (some []) "d".toList
        ["aa".toList, "bb".toList]).2.2.length =
      (["aa".toList, "bb".toList] : List Text).length ∧
    ((storeDocumentChunks baseEnv emptyDb (some []) "d".toList
        ["aa".toList, "bb".toList]).1.chunks.drop emptyDb.chunks.length).map
        (fun r => r.chunkIndex) =
      List.range (["aa".toList, "bb".toList] : List Text).length ∧
    (storeDocumentChunks baseEnv emptyDb (some []) "d".toList
        ["aa".toList, "bb".toList]).2.2 =
      (List.range (["aa".toList, "bb".toList] : List Text).length).map
        (fun i => pineconeIdOf "d".toList i (baseEnv.vecSuffix i)) :=
  ⟨(chunk_ordinals_dense baseEnv emptyDb (some []) "d".toList
      ["aa".toList, "bb".toList] _ rfl).1,
    (chunk_ordinals_dense baseEnv emptyDb (some []) "d".toList
      ["aa".toList, "bb".toList] _ rfl).2.2.1,
    (chunk_ordinals_dense baseEnv emptyDb (some []) "d".toList
      ["aa".toList, "bb".toList] _ rfl).2.2.2.2.2 [] rfl rfl⟩

theorem ensure_ingested_idempotent_witness :
    (ensureIngested baseEnv seededDb (some []) "u".toList =
      Except.ok (seededDb, some [], "d".toList, IngestTrace.mk 0 0 0) ∧
      seededDb.chunks = seededDb.chunks) ∧
    ensureIngested baseEnv seededDb (some []) "u".toList =
      Except.ok (seededDb, some [], "d".toList, IngestTrace.mk 0 0 0) :=
  ⟨ensure_ingested_idempotent_amended.1 baseEnv seededDb seededDb (some [])
      "u".toList "d".toList rfl rfl,
    ensure_ingested_idempotent_amended.2 baseEnv baseEnv seededDb (some [])
      "u".toList (seededDb, some [], "d".toList, IngestTrace.mk 0 0 0)
      (ensure_ingested_idempotent_amended.1 baseEnv seededDb seededDb (some [])
        "u".toList "d".toList rfl rfl).1 rfl (by decide)⟩

theorem buildClauses_mem (uuid : Nat → Text) (rows : List ChunkRow)
    (answerId : Text) :
    ∀ (ms : List RetrievalMatch) (n : Nat) (cl : ClauseRow),
      cl ∈ buildClauses uuid rows answerId ms n →
      cl.answerId = answerId ∧
      ∃ row ∈ rows, cl.chunkId = row.id ∧
        ∃ m ∈ ms, m.id = row.pineconeId ∧ cl.clauseText = m.text.take 1000 ∧
          cl.similarityScore = m.score := by
  intro ms
  induction ms with
  | nil =>
    intro n cl hcl
    simp [buildClauses] at hcl
  | cons m rest ih =>
    intro n cl hcl
    rw [buildClauses] at hcl
    cases hfind : rows.find? (fun r => r.pineconeId = m.id) with
    | none =>
      rw [hfind] at hcl
      obtain ⟨ha, row, hrow, h1, m2, hm2, h3⟩ := ih n cl hcl
      exact ⟨ha, row, hrow, h1, m2, List.mem_cons_of_mem m hm2, h3⟩
    | some row =>
      rw [hfind] at hcl
      rcases List.mem_cons.mp hcl with h | h
      · subst h
        refine ⟨rfl, row, List.mem_of_find?_eq_some hfind, rfl, m, List.mem_cons_self m rest,
          ?_, rfl, rfl⟩
        have hp := List.find?_some hfind
        have hp2 : row.pineconeId = m.id := by simpa using hp
        exact hp2.symm
      · obtain ⟨ha, row2, hrow2, h1, m2, hm2, h3⟩ := ih (n + 1) cl h
        exact ⟨ha, row2, hrow2, h1, m2, List.mem_cons_of_mem m hm2, h3⟩

theorem buildClauses_length (uuid : Nat → Text) (rows : List ChunkRow)
    (answerId : Text) :
    ∀ (ms : List RetrievalMatch) (n : Nat),
      (buildClauses uuid rows answerId ms n).length =
        (ms.filter (fun m => (rows.find? (fun r => r.pineconeId = m.id)).isSome)).length := by
  intro ms
  induction ms with
  | nil =>
    intro n
    simp [buildClauses]
  | cons m rest ih =>
    intro n
    rw [buildClauses]
    cases hfind : rows.find? (fun r => r.pineconeId = m.id) with
    | none => simp [List.filter_cons, hfind, ih n]
    | some row => simp [List.filter_cons, hfind, ih (n + 1)]

/-- Claim C8 (amended): every clause stored by `create_answer_with_clauses`
references a chunk row that exists in the chunks table — resolved by vector
store id alone, with no guarantee that it belongs to the queried document —
and carries the match's text truncated to at most 1000 characters and the
match's similarity score; a match whose vector store id resolves to no chunk
row produces no clause. -/
theorem answer_clauses_amended :
    ∀ (answerId : Text) (uuid : Nat → Text) (db : DbState)
      (queryId answerText : Text) (ms : List RetrievalMatch),
      (∀ cl ∈ (createAnswerWithClauses answerId uuid db queryId answerText
          ms).1.clauses.drop db.clauses.length,
        cl.answerId = answerId ∧
        ∃ row ∈ db.chunks, cl.chunkId = row.id ∧
          ∃ m ∈ ms, m.id = row.pineconeId ∧ cl.clauseText = m.text.take 1000 ∧
            cl.similarityScore = m.score) ∧
      ((createAnswerWithClauses answerId uuid db queryId answerText
          ms).1.clauses.drop db.clauses.length).length =
        (ms.filter
          (fun m => (db.chunks.find? (fun r => r.pineconeId = m.id)).isSome)).length := by
  intro answerId uuid db queryId answerText ms
  have hdrop : (createAnswerWithClauses answerId uuid db queryId answerText
      ms).1.clauses.drop db.clauses.length = buildClauses uuid db.chunks answerId ms 0 := by
    show (db.clauses ++ buildClauses uuid db.chunks answerId ms 0).drop db.clauses.length = _
    exact List.drop_left ..
  constructor
  · intro cl hcl
    rw [hdrop] at hcl
    exact buildClauses_mem uuid db.chunks answerId ms 0 cl hcl
  · rw [hdrop]
    exact buildClauses_length uuid db.chunks answerId ms 0

/-- Claim C8 as stated is false: in `c8Db`, chunk `c1` (vector id `p1`)
belongs to document `A` while query `q1` targets document `B`; the
document-blind lookup by `pinecone_id` still resolves the match, so the
stored clause references a chunk that exists but not for the queried
document. -/
theorem answer_clauses_cex :
    (createAnswerWithClauses "a1".toList (fun n => 'u' :: natText n) c8Db
        "q1".toList "ans".toList [c8Match]).1.clauses =
      [ClauseRow.mk "u0".toList "a1".toList "c1".toList "text".toList 5] ∧
    c8Db.queries = [QueryRow.mk "q1".toList "B".toList "question".toList] ∧
    c8Db.chunks = [ChunkRow.mk "c1".toList "A".toList 0 "t".toList "p1".toList] ∧
    ("A".toList : Text) ≠ "B".toList := by
  refine ⟨by decide, rfl, rfl, by decide⟩

theorem answer_clauses_amended_witness :
    ((ClauseRow.mk "u0".toList "a1".toList "c1".toList "text".toList 5).answerId =
        "a1".toList ∧
      ∃ row ∈ c8Db.chunks,
        (ClauseRow.mk "u0".toList "a1".toList "c1".toList "text".toList 5).chunkId =
          row.id ∧
        ∃ m ∈ [c8Match], m.id = row.pineconeId ∧
          (ClauseRow.mk "u0".toList "a1".toList "c1".toList "text".toList
            5).clauseText = m.text.take 1000 ∧
          (ClauseRow.mk "u0".toList "a1".toList "c1".toList "text".toList
            5).similarityScore = m.score) ∧
    ((createAnswerWithClauses "a1".toList (fun n => 'u' :: natText n) c8Db
        "q1".toList "ans".toList [c8Match]).1.clauses.drop
        c8Db.clauses.length).length =
      ([c8Match].filter
        (fun m => (c8Db.chunks.find? (fun r => r.pineconeId = m.id)).isSome)).length :=
  ⟨(answer_clauses_amended "a1".toList (fun n => 'u' :: natText n) c8Db
      "q1".toList "ans".toList [c8Match]).1
      (ClauseRow.mk "u0".toList "a1".toList "c1".toList "text".toList 5) (by decide),
    (answer_clauses_amended "a1".toList (fun n => 'u' :: natText n) c8Db
      "q1".toList "ans".toList [c8Match]).2⟩

end Bajaj

